import Mathlib

/-!
Shallow embedding of the terraform-provider-lima resource managers
(internal/provider/lima_disk_resource.go and the instance resource file)
and proofs about their CRUD contracts.

Modelling conventions:
  * Terraform framework attribute values (types.String, types.Int64,
    types.Float64, types.Bool, types.List) are modelled by `TFVal`, a
    three-state value (null / unknown / known), matching the framework
    null-unknown-value semantics used by IsNull, Equal and the ValueXxx
    accessors.
  * Go float64 configuration values (disk sizes, memory) are modelled as
    exact rationals: the code only compares them and prints them, and the
    decimal values written in configurations round-trip exactly.
  * An external command invocation `exec.CommandContext(ctx, "limactl",
    args...)` is modelled by its argument list `args` (the fixed program
    name "limactl" is left implicit).  The Go standard library string
    helpers strings.TrimSpace, strings.Split, strings.HasPrefix and
    strings.HasSuffix are modelled by the executable functions
    goTrimSpace, goSplitLines, goHasPrefix and goHasSuffix below.  The external world is an oracle
    `ExecEnv.run : List String → ExecResult` giving each command either
    success with its combined output or failure with an error message and
    output, exactly the two outcomes `cmd.CombinedOutput()` distinguishes.
  * `json.Unmarshal(line, &struct{ Name string })` from the Go standard
    library is modelled by the oracle `ExecEnv.unmarshalName`: `.ok nm`
    when the line is valid JSON for that struct (giving its name field),
    `.error msg` when it is not.
  * Each operation returns the list of argument lists it executed, in
    order, the warning and error log events it emitted, where relevant,
    and its outcome.  An `Except.error` outcome corresponds to
    `resp.Diagnostics.AddError` followed by return: the framework then
    keeps the prior persisted record.
-/

/-- Three-state terraform framework attribute value: null, unknown, or a
known value, as in the terraform-plugin-framework `types` package. -/
inductive TFVal (α : Type) where
  | null : TFVal α
  | unknown : TFVal α
  | known : α → TFVal α
deriving DecidableEq

namespace TFVal

/-- Framework `IsNull()`. -/
def IsNull : TFVal α → Bool
  | .null => true
  | _ => false

/-- Framework `Equal()`: two attribute values are equal when they are in
the same state and, when known, hold equal underlying values. -/
def Equal [DecidableEq α] : TFVal α → TFVal α → Bool
  | .null, .null => true
  | .unknown, .unknown => true
  | .known a, .known b => a = b
  | _, _ => false

/-- Underlying value with the zero default the framework accessors use
for null and unknown values. -/
def valueOr (d : α) : TFVal α → α
  | .known a => a
  | _ => d

/-- Framework `ValueString()`: empty string for null or unknown. -/
def ValueString (v : TFVal String) : String := v.valueOr ""

/-- Framework `ValueBool()`: false for null or unknown. -/
def ValueBool (v : TFVal Bool) : Bool := v.valueOr false

/-- Framework `ValueInt64()`: zero for null or unknown. -/
def ValueInt64 (v : TFVal Int) : Int := v.valueOr 0

/-- Framework `ValueFloat64()`: zero for null or unknown (value modelled
as an exact rational). -/
def ValueFloat64 (v : TFVal ℚ) : ℚ := v.valueOr 0

/-- Framework `Elements()` of a list value: the element list when known,
empty otherwise. -/
def Elements (v : TFVal (List α)) : List α := v.valueOr []

end TFVal

/-- Outcome of one external command: `cmd.CombinedOutput()` either
succeeds with the combined output or fails with a process error message
and the combined output. -/
inductive ExecResult where
  | ok : String → ExecResult
  | err : String → String → ExecResult
deriving DecidableEq

deriving instance DecidableEq for Except

/-- The external world: what each `limactl` invocation returns, and what
`json.Unmarshal` into `struct { Name string }` does on each listing
line (`.error` means the line is not valid JSON for that struct). -/
structure ExecEnv where
  run : List String → ExecResult
  unmarshalName : String → Except String String

/-- Error taxonomy of the provider diagnostics (`resp.Diagnostics.AddError`
call sites). -/
inductive Diag where
  /-- A lifecycle command exited non-zero: carries the argument list, the
  process error and the combined output. -/
  | commandExecutionError : List String → String → String → Diag
  /-- The listing command of a Read exited non-zero (the Go message omits
  the command line here): carries the process error and output. -/
  | listExecutionError : String → String → Diag
  /-- A listing line failed to parse as JSON: carries the parse error and
  the offending line. -/
  | parseError : String → String → Diag
  /-- A disk update requested a size decrease: carries the current size
  and the requested size. -/
  | immutableDecreaseError : ℚ → ℚ → Diag
deriving DecidableEq

/-- Warning and error log events emitted by the instance resource
(`tflog.Warn` and `tflog.Error` call sites that accompany best-effort
cleanup; debug and trace logs are not modelled). -/
inductive LogEvent where
  /-- `tflog.Warn`: start failed after create, cleaning up the created
  instance. -/
  | warnStartFailedCleaningUp : String → LogEvent
  /-- `tflog.Error`: the cleanup delete after a start failure itself
  failed; carries name, error and output. -/
  | errorCleanupFailed : String → String → String → LogEvent
  /-- `tflog.Warn`: the stop before delete failed (may already be
  stopped); carries name, error and output. -/
  | warnStopFailed : String → String → String → LogEvent
deriving DecidableEq

/-- Outcome of a Read: persist the record via `resp.State.Set`, remove it
via `resp.State.RemoveResource`, or fail with a diagnostic. -/
inductive ReadOutcome (μ : Type) where
  | set : μ → ReadOutcome μ
  | removed : ReadOutcome μ
  | failed : Diag → ReadOutcome μ
deriving DecidableEq

/-- Digits after the decimal point of a nonnegative rational, most
significant first, stopping when the remainder reaches zero.  The fuel
bounds the length; every value a configuration can denote as a float has
a finite decimal expansion well inside the fuel. -/
def fracDigits : Nat → ℚ → List Char
  | 0, _ => []
  | fuel + 1, q =>
    if q = 0 then []
    else
      let q10 := q * 10
      let d : Nat := q10.num.toNat / q10.den
      Char.ofNat (48 + d) :: fracDigits fuel (q10 - (d : ℚ))

/-- Decimal rendering of a nonnegative rational: integer part, then a
point and the fractional digits when nonzero. -/
def fmtGnn (q : ℚ) : String :=
  let ip : Nat := q.num.toNat / q.den
  let ds := fracDigits 1100 (q - (ip : ℚ))
  toString ip ++ (if ds.isEmpty then "" else "." ++ String.mk ds)

/-- Model of the Go format verb `%g` on the moderate-magnitude decimal
values this provider handles: shortest plain decimal form, no exponent
notation (10 renders as "10", 10.5 as "10.5"). -/
def fmtG (q : ℚ) : String :=
  if q < 0 then "-" ++ fmtGnn (-q) else fmtGnn q

/-- White space characters trimmed by Go strings.TrimSpace (the ASCII
ones; the listing output never holds the Unicode cases). -/
def isSpaceChar (c : Char) : Bool :=
  c = ' ' ∨ c = '\t' ∨ c = '\n' ∨ c = '\r' ∨ c = '\x0b' ∨ c = '\x0c'

/-- Go strings.TrimSpace: remove leading and trailing white space. -/
def goTrimSpace (s : String) : String :=
  String.mk (((s.data.dropWhile isSpaceChar).reverse.dropWhile isSpaceChar).reverse)

/-- Helper of goSplitLines: accumulate the current line in reverse and
cut at every newline, keeping empty pieces, as Go strings.Split does. -/
def splitLinesAux : List Char → List Char → List String
  | [], acc => [String.mk acc.reverse]
  | c :: rest, acc =>
    if c = '\n' then String.mk acc.reverse :: splitLinesAux rest []
    else splitLinesAux rest (c :: acc)

/-- Go strings.Split with the newline separator: the pieces between
newlines, in order; the empty string yields one empty piece. -/
def goSplitLines (s : String) : List String := splitLinesAux s.data []

/-- Go strings.HasPrefix. -/
def goHasPrefix (s pat : String) : Bool :=
  pat.data.isPrefixOf s.data

/-- Go strings.HasSuffix. -/
def goHasSuffix (s pat : String) : Bool :=
  pat.data.isSuffixOf s.data

/-- The shared listing-scan loop of both Read methods: skip empty lines,
unmarshal each remaining line, fail with a ParseError on an invalid line,
and stop with success as soon as a parsed name equals the target. -/
def scanForName (unmarshal : String → Except String String) (target : String) :
    List String → Except Diag Bool
  | [] => .ok false
  | line :: rest =>
    if line = "" then scanForName unmarshal target rest
    else
      match unmarshal line with
      | .error e => .error (.parseError e line)
      | .ok nm => if nm = target then .ok true else scanForName unmarshal target rest

/-- LimaDiskResourceModel: the disk resource data model. -/
structure LimaDiskResourceModel where
  Name : TFVal String
  Size : TFVal ℚ
  Format : TFVal String
  Id : TFVal String
deriving DecidableEq

namespace LimaDiskResource

/-- Argument list built by the disk Create method:
`disk create <name> --size=<size>G [--format=<fmt>] --tty=false`. -/
def createArgs (data : LimaDiskResourceModel) : List String :=
  ["disk", "create", data.Name.ValueString]
    ++ ["--size=" ++ fmtG data.Size.ValueFloat64 ++ "G"]
    ++ (if ¬data.Format.IsNull then ["--format=" ++ data.Format.ValueString] else [])
    ++ ["--tty=false"]

/-- Disk Create: run `disk create`; on failure report a
CommandExecutionError; on success set the Id to the Name and persist. -/
def Create (env : ExecEnv) (data : LimaDiskResourceModel) :
    List (List String) × Except Diag LimaDiskResourceModel :=
  let args := createArgs data
  match env.run args with
  | .err e o => ([args], .error (.commandExecutionError args e o))
  | .ok _ => ([args], .ok { data with Id := data.Name })

/-- Disk Read: run `disk list --json`, split the trimmed output into
lines, scan for the stored name; keep the record unchanged when found,
remove it when absent, fail on a list failure or parse failure. -/
def Read (env : ExecEnv) (data : LimaDiskResourceModel) :
    List (List String) × ReadOutcome LimaDiskResourceModel :=
  let args := ["disk", "list", "--json"]
  match env.run args with
  | .err e o => ([args], .failed (.listExecutionError e o))
  | .ok output =>
    match scanForName env.unmarshalName data.Name.ValueString (goSplitLines (goTrimSpace output)) with
    | .error d => ([args], .failed d)
    | .ok true => ([args], .set data)
    | .ok false => ([args], .removed)

/-- Disk Update: when the size is unchanged, persist the plan without
running anything; when it decreased, fail with an ImmutableDecreaseError
before running anything; otherwise run `disk resize` and persist the plan
on success. -/
def Update (env : ExecEnv) (plan state : LimaDiskResourceModel) :
    List (List String) × Except Diag LimaDiskResourceModel :=
  if plan.Size.Equal state.Size then ([], .ok plan)
  else if plan.Size.ValueFloat64 < state.Size.ValueFloat64 then
    ([], .error (.immutableDecreaseError state.Size.ValueFloat64 plan.Size.ValueFloat64))
  else
    let args := ["disk", "resize", plan.Name.ValueString,
      "--size=" ++ fmtG plan.Size.ValueFloat64 ++ "G", "--tty=false"]
    match env.run args with
    | .err e o => ([args], .error (.commandExecutionError args e o))
    | .ok _ => ([args], .ok plan)

/-- Disk Delete: run `disk delete <name>`; non-zero exit is a
CommandExecutionError. -/
def Delete (env : ExecEnv) (data : LimaDiskResourceModel) :
    List (List String) × Except Diag Unit :=
  let args := ["disk", "delete", data.Name.ValueString]
  match env.run args with
  | .err e o => ([args], .error (.commandExecutionError args e o))
  | .ok _ => ([args], .ok ())

end LimaDiskResource

/-- DisksModel: one attached-disk block of the instance resource, a name
and a mount point. -/
structure DisksModel where
  Name : TFVal String
  MountPoint : TFVal String
deriving DecidableEq

/-- LimaInstanceResourceModel: the instance resource data model. -/
structure LimaInstanceResourceModel where
  Name : TFVal String
  Template : TFVal String
  Arch : TFVal String
  Containerd : TFVal String
  Cpus : TFVal Int
  Disk : TFVal ℚ
  Memory : TFVal ℚ
  DNS : TFVal (List String)
  Mount : TFVal (List String)
  MountInotify : TFVal Bool
  MountNone : TFVal Bool
  MountType : TFVal String
  MountWritable : TFVal Bool
  Network : TFVal (List String)
  Plain : TFVal Bool
  Rosetta : TFVal Bool
  Video : TFVal Bool
  VmType : TFVal String
  Disks : TFVal (List DisksModel)
  Id : TFVal String
deriving DecidableEq

/-- Two-character lowercase hexadecimal rendering of a byte. -/
def hexByte (n : Nat) : String :=
  let digit := fun (d : Nat) => Char.ofNat (if d < 10 then 48 + d else 87 + d)
  String.mk [digit (n / 16 % 16), digit (n % 16)]

/-- Go json.Marshal escaping of one string character: backslash, quote,
the HTML-escaped characters, and ASCII control characters. -/
def jsonEscapeChar (c : Char) : String :=
  if c = '\\' then "\\\\"
  else if c = '"' then "\\\""
  else if c = '<' then "\\u003c"
  else if c = '>' then "\\u003e"
  else if c = '&' then "\\u0026"
  else if c = '\n' then "\\n"
  else if c = '\r' then "\\r"
  else if c = '\t' then "\\t"
  else if c.toNat < 32 then "\\u00" ++ hexByte c.toNat
  else String.singleton c

/-- Go json.Marshal escaping of a string body. -/
def jsonEscape (s : String) : String :=
  String.join (s.data.map jsonEscapeChar)

/-- Serialization of one attached disk as the Go `diskJSON` struct
(fields tagged name and mountPoint). -/
def diskJSONString (d : DisksModel) : String :=
  "\x7b\"name\":\"" ++ jsonEscape d.Name.ValueString
    ++ "\",\"mountPoint\":\"" ++ jsonEscape d.MountPoint.ValueString ++ "\"\x7d"

/-- `json.Marshal` of the attached-disk array passed to
`--set=.additionalDisks=`. -/
def jsonMarshalDisks (ds : List DisksModel) : String :=
  "[" ++ String.intercalate "," (ds.map diskJSONString) ++ "]"

/-- Template normalization in the instance Create method: a value that
neither starts with "http" nor ends with ".yaml" is treated as a named
template and prefixed with the template locator scheme; anything else is
passed unmodified. -/
def normalizeTemplate (template : String) : String :=
  if ¬goHasPrefix template "http" ∧ ¬goHasSuffix template ".yaml"
  then "template://" ++ template else template

namespace LimaInstanceResource

/-- Argument list built by the instance Create method, one flag group per
populated field, in source order, ending with `--tty=false` and the
normalized template positional argument. -/
def createArgs (data : LimaInstanceResourceModel) : List String :=
  ["create"]
    ++ (if ¬data.Name.IsNull then ["--name=" ++ data.Name.ValueString] else [])
    ++ (if ¬data.Arch.IsNull then ["--arch=" ++ data.Arch.ValueString] else [])
    ++ (if ¬data.Containerd.IsNull then ["--containerd=" ++ data.Containerd.ValueString] else [])
    ++ (if ¬data.Cpus.IsNull then ["--cpus=" ++ toString data.Cpus.ValueInt64] else [])
    ++ (if ¬data.Disk.IsNull then ["--disk=" ++ fmtG data.Disk.ValueFloat64] else [])
    ++ (if ¬data.Memory.IsNull then ["--memory=" ++ fmtG data.Memory.ValueFloat64] else [])
    ++ (if ¬data.DNS.IsNull ∧ 0 < data.DNS.Elements.length
        then data.DNS.Elements.map (fun dns => "--dns=" ++ dns) else [])
    ++ (if ¬data.Mount.IsNull ∧ 0 < data.Mount.Elements.length
        then data.Mount.Elements.map (fun mount => "--mount=" ++ mount) else [])
    ++ (if data.MountInotify.ValueBool then ["--mount-inotify"] else [])
    ++ (if data.MountNone.ValueBool then ["--mount-none"] else [])
    ++ (if ¬data.MountType.IsNull then ["--mount-type=" ++ data.MountType.ValueString] else [])
    ++ (if data.MountWritable.ValueBool then ["--mount-writable"] else [])
    ++ (if ¬data.Network.IsNull ∧ 0 < data.Network.Elements.length
        then data.Network.Elements.map (fun network => "--network=" ++ network) else [])
    ++ (if data.Plain.ValueBool then ["--plain"] else [])
    ++ (if data.Rosetta.ValueBool then ["--rosetta"] else [])
    ++ (if data.Video.ValueBool then ["--video"] else [])
    ++ (if ¬data.VmType.IsNull then ["--vm-type=" ++ data.VmType.ValueString] else [])
    ++ (if ¬data.Disks.IsNull ∧ 0 < data.Disks.Elements.length
        then ["--set=.additionalDisks=" ++ jsonMarshalDisks data.Disks.Elements] else [])
    ++ ["--tty=false"]
    ++ (if ¬data.Template.IsNull then [normalizeTemplate data.Template.ValueString] else [])

/-- Instance Create: run the create command, then `start <name>`; when
start fails, run a best-effort `delete <name>` (its own failure is only
logged as an error event) and report the start failure; on full success
set the Id to the Name and persist. -/
def Create (env : ExecEnv) (data : LimaInstanceResourceModel) :
    List (List String) × List LogEvent × Except Diag LimaInstanceResourceModel :=
  let args := createArgs data
  match env.run args with
  | .err e o => ([args], [], .error (.commandExecutionError args e o))
  | .ok _ =>
    let name := data.Name.ValueString
    let startArgs := ["start", name]
    match env.run startArgs with
    | .ok _ => ([args, startArgs], [], .ok { data with Id := data.Name })
    | .err se so =>
      let deleteArgs := ["delete", name]
      match env.run deleteArgs with
      | .ok _ =>
        ([args, startArgs, deleteArgs], [.warnStartFailedCleaningUp name],
          .error (.commandExecutionError startArgs se so))
      | .err de dout =>
        ([args, startArgs, deleteArgs],
          [.warnStartFailedCleaningUp name, .errorCleanupFailed name de dout],
          .error (.commandExecutionError startArgs se so))

/-- Instance Read: run `list --json`, split the trimmed output into
lines, scan for the stored name; keep the record unchanged when found,
remove it when absent, fail on a list failure or parse failure. -/
def Read (env : ExecEnv) (data : LimaInstanceResourceModel) :
    List (List String) × ReadOutcome LimaInstanceResourceModel :=
  let args := ["list", "--json"]
  match env.run args with
  | .err e o => ([args], .failed (.listExecutionError e o))
  | .ok output =>
    match scanForName env.unmarshalName data.Name.ValueString (goSplitLines (goTrimSpace output)) with
    | .error d => ([args], .failed d)
    | .ok true => ([args], .set data)
    | .ok false => ([args], .removed)

/-- Argument list built by the instance Update method for `limactl edit`:
the edit subcommand, the name, then one flag group per changed mutable
field, in source order.  Scalar flags need a non-null plan value, list
flags a non-null non-empty plan list, boolean flags a true plan value. -/
def editArgs (plan state : LimaInstanceResourceModel) : List String :=
  ["edit", plan.Name.ValueString]
    ++ (if ¬plan.Cpus.IsNull ∧ ¬plan.Cpus.Equal state.Cpus
        then ["--cpus=" ++ toString plan.Cpus.ValueInt64] else [])
    ++ (if ¬plan.Disk.IsNull ∧ ¬plan.Disk.Equal state.Disk
        then ["--disk=" ++ fmtG plan.Disk.ValueFloat64] else [])
    ++ (if ¬plan.Memory.IsNull ∧ ¬plan.Memory.Equal state.Memory
        then ["--memory=" ++ fmtG plan.Memory.ValueFloat64] else [])
    ++ (if ¬plan.DNS.Equal state.DNS
        then (if ¬plan.DNS.IsNull ∧ 0 < plan.DNS.Elements.length
              then plan.DNS.Elements.map (fun dns => "--dns=" ++ dns) else [])
        else [])
    ++ (if ¬plan.Mount.Equal state.Mount
        then (if ¬plan.Mount.IsNull ∧ 0 < plan.Mount.Elements.length
              then plan.Mount.Elements.map (fun mount => "--mount=" ++ mount) else [])
        else [])
    ++ (if ¬plan.MountInotify.Equal state.MountInotify ∧ plan.MountInotify.ValueBool
        then ["--mount-inotify"] else [])
    ++ (if ¬plan.MountType.IsNull ∧ ¬plan.MountType.Equal state.MountType
        then ["--mount-type=" ++ plan.MountType.ValueString] else [])
    ++ (if ¬plan.MountWritable.Equal state.MountWritable ∧ plan.MountWritable.ValueBool
        then ["--mount-writable"] else [])
    ++ (if ¬plan.Network.Equal state.Network
        then (if ¬plan.Network.IsNull ∧ 0 < plan.Network.Elements.length
              then plan.Network.Elements.map (fun network => "--network=" ++ network) else [])
        else [])
    ++ (if ¬plan.Rosetta.Equal state.Rosetta ∧ plan.Rosetta.ValueBool
        then ["--rosetta"] else [])
    ++ (if ¬plan.Video.Equal state.Video ∧ plan.Video.ValueBool
        then ["--video"] else [])

/-- Instance Update: build the edit argument list; when it holds more
than the subcommand and the name, run stop, then edit, then start,
aborting with the CommandExecutionError of that step at the first failure;
otherwise run nothing.  Either way the plan is persisted on success. -/
def Update (env : ExecEnv) (plan state : LimaInstanceResourceModel) :
    List (List String) × Except Diag LimaInstanceResourceModel :=
  let args := editArgs plan state
  if 2 < args.length then
    let name := plan.Name.ValueString
    let stopArgs := ["stop", name]
    match env.run stopArgs with
    | .err e o => ([stopArgs], .error (.commandExecutionError stopArgs e o))
    | .ok _ =>
      match env.run args with
      | .err e o => ([stopArgs, args], .error (.commandExecutionError args e o))
      | .ok _ =>
        let startArgs := ["start", name]
        match env.run startArgs with
        | .err e o =>
          ([stopArgs, args, startArgs], .error (.commandExecutionError startArgs e o))
        | .ok _ => ([stopArgs, args, startArgs], .ok plan)
  else ([], .ok plan)

/-- Instance Delete: run `stop <name>` whose failure is only logged as a
warning, then `delete <name>` whose failure is a CommandExecutionError. -/
def Delete (env : ExecEnv) (data : LimaInstanceResourceModel) :
    List (List String) × List LogEvent × Except Diag Unit :=
  let name := data.Name.ValueString
  let stopArgs := ["stop", name]
  let logs := match env.run stopArgs with
    | .ok _ => []
    | .err e o => [LogEvent.warnStopFailed name e o]
  let deleteArgs := ["delete", name]
  match env.run deleteArgs with
  | .err e o => ([stopArgs, deleteArgs], logs, .error (.commandExecutionError deleteArgs e o))
  | .ok _ => ([stopArgs, deleteArgs], logs, .ok ())

end LimaInstanceResource

/-- Modelled from the specification wording of claim C1: at least one of
the eleven mutable instance fields (cpu count, disk size, memory size,
DNS list, mount list, mount-inotify, mount-type, mount-writable, network
list, rosetta, video) differs between the prior record and the desired
record. -/
def specMutableFieldChanged (plan state : LimaInstanceResourceModel) : Bool :=
  ¬plan.Cpus.Equal state.Cpus ∨ ¬plan.Disk.Equal state.Disk
    ∨ ¬plan.Memory.Equal state.Memory ∨ ¬plan.DNS.Equal state.DNS
    ∨ ¬plan.Mount.Equal state.Mount ∨ ¬plan.MountInotify.Equal state.MountInotify
    ∨ ¬plan.MountType.Equal state.MountType
    ∨ ¬plan.MountWritable.Equal state.MountWritable
    ∨ ¬plan.Network.Equal state.Network ∨ ¬plan.Rosetta.Equal state.Rosetta
    ∨ ¬plan.Video.Equal state.Video

/-! Concrete environments and records used to evaluate the theorems on
concrete inputs. -/

/-- An environment in which every command succeeds with empty output and
no listing line parses. -/
def envAllOk : ExecEnv :=
  { run := fun _ => .ok ""
    unmarshalName := fun _ => .error "invalid" }

/-- An environment in which every start command fails and every other
command succeeds. -/
def envStartFails : ExecEnv :=
  { run := fun args =>
      match args with
      | "start" :: _ => .err "exit status 1" "boom"
      | _ => .ok ""
    unmarshalName := fun _ => .error "invalid" }

/-- An environment in which every stop command fails and every other
command succeeds. -/
def envStopFails : ExecEnv :=
  { run := fun args =>
      match args with
      | "stop" :: _ => .err "exit status 1" "already stopped"
      | _ => .ok ""
    unmarshalName := fun _ => .error "invalid" }

/-- An environment whose listings return a matching JSON line followed by
a malformed line; only that exact JSON line unmarshals. -/
def envScanStop : ExecEnv :=
  { run := fun args =>
      if args = ["disk", "list", "--json"] ∨ args = ["list", "--json"]
      then .ok "\x7b\"name\":\"test-disk\"\x7d\nnot json"
      else .ok ""
    unmarshalName := fun line =>
      if line = "\x7b\"name\":\"test-disk\"\x7d" then .ok "test-disk"
      else .error "invalid character" }

/-- An environment whose listings return a single malformed line. -/
def envParseFail : ExecEnv :=
  { run := fun args =>
      if args = ["disk", "list", "--json"] ∨ args = ["list", "--json"]
      then .ok "not json" else .ok ""
    unmarshalName := fun _ => .error "invalid character" }

/-- An environment whose listings return whitespace-only output. -/
def envWhitespace : ExecEnv :=
  { run := fun _ => .ok "   \n  "
    unmarshalName := fun _ => .error "invalid character" }

/-- An environment whose disk listing names only another-disk and whose
instance listing names test-instance. -/
def envOtherName : ExecEnv :=
  { run := fun args =>
      if args = ["disk", "list", "--json"] then .ok "\x7b\"name\":\"other\"\x7d"
      else if args = ["list", "--json"] then .ok "\x7b\"name\":\"test-instance\"\x7d"
      else .ok ""
    unmarshalName := fun line =>
      if line = "\x7b\"name\":\"other\"\x7d" then .ok "other"
      else if line = "\x7b\"name\":\"test-instance\"\x7d" then .ok "test-instance"
      else .error "invalid character" }

/-- A concrete disk record: name test-disk, size 10, default format. -/
def diskRecord : LimaDiskResourceModel :=
  { Name := .known "test-disk", Size := .known 10, Format := .known "qcow2",
    Id := .known "test-disk" }

/-- The disk record with size 20. -/
def diskRecord20 : LimaDiskResourceModel :=
  { diskRecord with Size := .known 20 }

/-- A concrete instance record with only the name populated and the
boolean toggles at their false defaults. -/
def instBase : LimaInstanceResourceModel :=
  { Name := .known "test-instance", Template := .null, Arch := .null,
    Containerd := .null, Cpus := .null, Disk := .null, Memory := .null,
    DNS := .null, Mount := .null, MountInotify := .known false,
    MountNone := .known false, MountType := .null,
    MountWritable := .known false, Network := .null, Plain := .known false,
    Rosetta := .known false, Video := .known false, VmType := .null,
    Disks := .null, Id := .known "test-instance" }

/-- The base instance record with rosetta enabled. -/
def instRosettaOn : LimaInstanceResourceModel :=
  { instBase with Rosetta := .known true }

/-- The base instance record with 4 cpus. -/
def instCpus4 : LimaInstanceResourceModel :=
  { instBase with Cpus := .known 4 }

/-- The base instance record with 2 cpus. -/
def instCpus2 : LimaInstanceResourceModel :=
  { instBase with Cpus := .known 2 }

/-- The base instance record with the docker template. -/
def instTemplated : LimaInstanceResourceModel :=
  { instBase with Template := .known "docker" }

/-! Helper lemmas shared by the claim theorems. -/

/-- Framework equality of attribute values coincides with equality of the
modelled three-state values. -/
lemma TFVal.Equal_eq_true_iff [DecidableEq α] {a b : TFVal α} :
    a.Equal b = true ↔ a = b := by
  cases a <;> cases b <;> simp [TFVal.Equal]

/-- Zero has no fractional digits. -/
lemma fracDigits_zero (fuel : Nat) : fracDigits fuel 0 = [] := by
  cases fuel <;> simp [fracDigits]

/-- The decimal rendering of a natural number value is its plain digit
string. -/
lemma fmtG_natCast (n : Nat) : fmtG (n : ℚ) = toString n := by
  rw [fmtG, if_neg (not_lt.mpr (by positivity))]
  unfold fmtGnn
  simp [fracDigits_zero]

/-- A strictly smaller accessor value rules out framework equality. -/
lemma TFVal.Equal_eq_false_of_lt {a b : TFVal ℚ}
    (h : a.ValueFloat64 < b.ValueFloat64) : a.Equal b = false := by
  rcases Bool.eq_false_or_eq_true (a.Equal b) with ht | hf
  · exact absurd h (by rw [TFVal.Equal_eq_true_iff.mp ht]; exact lt_irrefl _)
  · exact hf

/-- The scan loop fails with a ParseError at the first non-empty
unparseable line when every earlier line is empty or parses to a
non-matching name. -/
lemma scanForName_error (unm : String → Except String String) (target : String)
    (pre : List String) (l : String) (post : List String) (e : String)
    (hpre : ∀ x ∈ pre, x = "" ∨ ∃ nm, unm x = .ok nm ∧ nm ≠ target)
    (hl : l ≠ "") (herr : unm l = .error e) :
    scanForName unm target (pre ++ l :: post) = .error (.parseError e l) := by
  induction pre with
  | nil => simp [scanForName, hl, herr]
  | cons x xs ih =>
    have tail := ih fun y hy => hpre y (List.mem_cons_of_mem _ hy)
    by_cases hx : x = ""
    · subst hx; simpa [scanForName] using tail
    · rcases hpre x (List.mem_cons_self _ _) with h1 | ⟨nm, hok, hne⟩
      · exact absurd h1 hx
      · simpa [scanForName, hx, hok, hne] using tail

/-- The scan loop reports absence when every line is empty or parses to a
non-matching name. -/
lemma scanForName_ok_false (unm : String → Except String String) (target : String)
    (lines : List String)
    (h : ∀ x ∈ lines, x = "" ∨ ∃ nm, unm x = .ok nm ∧ nm ≠ target) :
    scanForName unm target lines = .ok false := by
  induction lines with
  | nil => rfl
  | cons x xs ih =>
    have tail := ih fun y hy => h y (List.mem_cons_of_mem _ hy)
    by_cases hx : x = ""
    · subst hx; simpa [scanForName] using tail
    · rcases h x (List.mem_cons_self _ _) with h1 | ⟨nm, hok, hne⟩
      · exact absurd h1 hx
      · simpa [scanForName, hx, hok, hne] using tail

/-- The scan loop reports presence and stops as soon as it reaches a
non-empty line parsing to the target name, whatever follows it. -/
lemma scanForName_stops (unm : String → Except String String) (target : String)
    (pre : List String) (m : String) (post : List String)
    (hpre : ∀ x ∈ pre, x = "" ∨ ∃ nm, unm x = .ok nm ∧ nm ≠ target)
    (hm : m ≠ "") (hmatch : unm m = .ok target) :
    scanForName unm target (pre ++ m :: post) = .ok true := by
  induction pre with
  | nil => simp [scanForName, hm, hmatch]
  | cons x xs ih =>
    have tail := ih fun y hy => hpre y (List.mem_cons_of_mem _ hy)
    by_cases hx : x = ""
    · subst hx; simpa [scanForName] using tail
    · rcases hpre x (List.mem_cons_self _ _) with h1 | ⟨nm, hok, hne⟩
      · exact absurd h1 hx
      · simpa [scanForName, hx, hok, hne] using tail

/-- The scan loop reports presence when every line parses and some
non-empty line parses to the target name. -/
lemma scanForName_ok_true (unm : String → Except String String) (target : String)
    (lines : List String)
    (hall : ∀ x ∈ lines, x = "" ∨ ∃ nm, unm x = .ok nm)
    (hex : ∃ x ∈ lines, x ≠ "" ∧ unm x = .ok target) :
    scanForName unm target lines = .ok true := by
  induction lines with
  | nil => exact absurd hex (by simp)
  | cons x xs ih =>
    by_cases hx : x = ""
    · subst hx
      have hex2 : ∃ y ∈ xs, y ≠ "" ∧ unm y = .ok target := by
        rcases hex with ⟨y, hy, hyne, hyok⟩
        rcases List.mem_cons.mp hy with rfl | hmem
        · exact absurd rfl hyne
        · exact ⟨y, hmem, hyne, hyok⟩
      simpa [scanForName] using
        ih (fun y hy => hall y (List.mem_cons_of_mem _ hy)) hex2
    · rcases hall x (List.mem_cons_self _ _) with h1 | ⟨nm, hok⟩
      · exact absurd h1 hx
      · by_cases hnm : nm = target
        · subst hnm; simp [scanForName, hx, hok]
        · have hex2 : ∃ y ∈ xs, y ≠ "" ∧ unm y = .ok target := by
            rcases hex with ⟨y, hy, hyne, hyok⟩
            rcases List.mem_cons.mp hy with rfl | hmem
            · rw [hok] at hyok
              exact absurd (Except.ok.injEq .. ▸ hyok) hnm
            · exact ⟨y, hmem, hyne, hyok⟩
          simpa [scanForName, hx, hok, hnm] using
            ih (fun y hy => hall y (List.mem_cons_of_mem _ hy)) hex2

/-- A scalar edit flag group is empty when a changed value forces a null
plan value. -/
lemma flag_nil_of_null {p e : Bool} (h : e = false → p = true) (fl : List String) :
    (if ¬p ∧ ¬e then fl else []) = [] := by
  cases p <;> cases e <;> simp_all

/-- A boolean edit flag group is empty when a changed toggle forces a
false plan value. -/
lemma flag_nil_of_false {e v : Bool} (h : e = false → v = false) (fl : List String) :
    (if ¬e ∧ v then fl else []) = [] := by
  cases e <;> cases v <;> simp_all

/-- A list edit flag group is empty when a changed list forces a null or
empty plan list. -/
lemma flag_nil_of_list {e p : Bool} {xs : List String}
    (h : e = false → p = true ∨ xs.length = 0) (fl : List String) :
    (if ¬e then (if ¬p ∧ 0 < xs.length then fl else []) else []) = [] := by
  cases e
  · rcases h rfl with h1 | h1 <;> simp [h1]
  · simp

/-! Claim theorems. -/

/-- C2: a disk Update whose desired size is strictly less than the prior
size fails with an ImmutableDecreaseError carrying current and requested
size, invokes no external command, and does not persist the desired
record (the error outcome leaves the prior persisted record in place). -/
theorem C2_disk_update_decrease_rejected (env : ExecEnv)
    (plan state : LimaDiskResourceModel)
    (h : plan.Size.ValueFloat64 < state.Size.ValueFloat64) :
    LimaDiskResource.Update env plan state
      = ([], .error (.immutableDecreaseError state.Size.ValueFloat64
          plan.Size.ValueFloat64)) := by
  have hne := TFVal.Equal_eq_false_of_lt h
  simp [LimaDiskResource.Update, hne, h]

/-- C2 witness: the spec scenario resize 20 to 10 is rejected with the
decrease error and no command runs. -/
theorem C2_witness :
    diskRecord.Size.ValueFloat64 < diskRecord20.Size.ValueFloat64
    ∧ LimaDiskResource.Update envAllOk diskRecord diskRecord20
        = ([], .error (.immutableDecreaseError diskRecord20.Size.ValueFloat64
            diskRecord.Size.ValueFloat64)) := by
  have hlt : diskRecord.Size.ValueFloat64 < diskRecord20.Size.ValueFloat64 := by
    simp only [diskRecord, diskRecord20, TFVal.ValueFloat64, TFVal.valueOr]
    norm_num
  exact ⟨hlt, C2_disk_update_decrease_rejected envAllOk diskRecord diskRecord20 hlt⟩

/-- C3: in an instance Create with a non-null template, the normalized
template is the trailing positional argument; a value neither starting
with http nor ending in .yaml gets the template scheme prefix, anything
else is passed unmodified. -/
theorem C3_template_normalized (data : LimaInstanceResourceModel)
    (h : ¬data.Template.IsNull) :
    (LimaInstanceResource.createArgs data).getLast?
        = some (normalizeTemplate data.Template.ValueString)
    ∧ (¬goHasPrefix (data.Template.ValueString) "http"
          ∧ ¬goHasSuffix (data.Template.ValueString) ".yaml" →
        normalizeTemplate data.Template.ValueString
          = "template://" ++ data.Template.ValueString)
    ∧ (goHasPrefix (data.Template.ValueString) "http"
          ∨ goHasSuffix (data.Template.ValueString) ".yaml" →
        normalizeTemplate data.Template.ValueString
          = data.Template.ValueString) := by
  refine ⟨?_, ?_, ?_⟩
  · rw [LimaInstanceResource.createArgs]
    rw [List.getLast?_append_of_ne_nil _ (by simp [h])]
    simp [h]
  · intro hcond
    rw [normalizeTemplate, if_pos hcond]
  · intro hcond
    rw [normalizeTemplate, if_neg (by tauto)]

/-- C3 witness: a bare template name docker is prefixed with the
template locator scheme and passed last. -/
theorem C3_witness :
    ¬instTemplated.Template.IsNull
    ∧ (LimaInstanceResource.createArgs instTemplated).getLast?
        = some "template://docker" :=
  ⟨by decide,
   ((C3_template_normalized instTemplated (by decide)).1).trans (by decide)⟩

/-- C7: a disk Create with name n, size s and the default qcow2 format
invokes exactly disk create n --size=sG --format=qcow2 --tty=false, and
on success persists the record with its identifier set to its name. -/
theorem C7_disk_create_command (env : ExecEnv) (n : String) (s : ℚ)
    (data : LimaDiskResourceModel) (hn : data.Name = .known n)
    (hs : data.Size = .known s) (hf : data.Format = .known "qcow2") :
    LimaDiskResource.createArgs data
      = ["disk", "create", n, "--size=" ++ fmtG s ++ "G", "--format=qcow2",
         "--tty=false"]
    ∧ (∀ o, env.run (LimaDiskResource.createArgs data) = .ok o →
        LimaDiskResource.Create env data
          = ([LimaDiskResource.createArgs data],
             .ok { data with Id := data.Name })) := by
  constructor
  · simp [LimaDiskResource.createArgs, hn, hs, hf, TFVal.IsNull, TFVal.ValueString,
      TFVal.ValueFloat64, TFVal.valueOr]
  · intro o ho
    simp [LimaDiskResource.Create, ho]

/-- C7 witness: name test-disk and size 10 yield the exact command of the
spec scenario, and the persisted identifier equals the name. -/
theorem C7_witness :
    LimaDiskResource.createArgs diskRecord
      = ["disk", "create", "test-disk", "--size=10G", "--format=qcow2",
         "--tty=false"]
    ∧ LimaDiskResource.Create envAllOk diskRecord
        = ([["disk", "create", "test-disk", "--size=10G", "--format=qcow2",
            "--tty=false"]],
           .ok { diskRecord with Id := .known "test-disk" }) := by
  have h := C7_disk_create_command envAllOk "test-disk" 10 diskRecord rfl rfl rfl
  have hfmt : fmtG 10 = "10" := by
    have := fmtG_natCast 10
    norm_num at this
    exact this
  refine ⟨?_, ?_⟩
  · rw [h.1, hfmt]
    rfl
  · rw [h.2 "" rfl, h.1, hfmt]
    rfl

/-- C8: an instance Delete always invokes stop first and then delete; a
stop failure is recorded only as a warning log event and never changes
the outcome; the outcome is a CommandExecutionError of the delete command
exactly when delete fails, and success otherwise, regardless of the stop
result. -/
theorem C8_instance_delete_stop_best_effort (env : ExecEnv)
    (data : LimaInstanceResourceModel) :
    (LimaInstanceResource.Delete env data).1
        = [["stop", data.Name.ValueString], ["delete", data.Name.ValueString]]
    ∧ (∀ e o, env.run ["stop", data.Name.ValueString] = .err e o →
        (LimaInstanceResource.Delete env data).2.1
          = [.warnStopFailed data.Name.ValueString e o])
    ∧ (∀ o, env.run ["stop", data.Name.ValueString] = .ok o →
        (LimaInstanceResource.Delete env data).2.1 = [])
    ∧ (∀ o, env.run ["delete", data.Name.ValueString] = .ok o →
        (LimaInstanceResource.Delete env data).2.2 = .ok ())
    ∧ (∀ e o, env.run ["delete", data.Name.ValueString] = .err e o →
        (LimaInstanceResource.Delete env data).2.2
          = .error (.commandExecutionError ["delete", data.Name.ValueString] e o)) := by
  unfold LimaInstanceResource.Delete
  rcases hs : env.run ["stop", data.Name.ValueString] with ⟨so⟩ | ⟨se, so⟩ <;>
    rcases hd : env.run ["delete", data.Name.ValueString] with ⟨dd⟩ | ⟨de, dd⟩ <;>
    simp [hs, hd]

/-- C8 witness: with a failing stop and a succeeding delete, Delete runs
both commands, only logs the stop warning, and succeeds. -/
theorem C8_witness :
    LimaInstanceResource.Delete envStopFails instBase
      = ([["stop", "test-instance"], ["delete", "test-instance"]],
         [.warnStopFailed "test-instance" "exit status 1" "already stopped"],
         .ok ()) := by
  have h := C8_instance_delete_stop_best_effort envStopFails instBase
  have hsplit : LimaInstanceResource.Delete envStopFails instBase
      = ((LimaInstanceResource.Delete envStopFails instBase).1,
         (LimaInstanceResource.Delete envStopFails instBase).2.1,
         (LimaInstanceResource.Delete envStopFails instBase).2.2) := rfl
  rw [hsplit, h.1, h.2.1 "exit status 1" "already stopped" rfl,
    h.2.2.2.1 "" rfl]
  rfl

/-- C5: in an instance Create whose create command succeeds and whose
start command fails, a best-effort delete of the just-created instance is
invoked, the outcome is the CommandExecutionError of the start step (so
no record is persisted), and a cleanup failure only adds an error log
event without changing the outcome. -/
theorem C5_create_start_failure_cleanup (env : ExecEnv)
    (data : LimaInstanceResourceModel) (out se so : String)
    (hc : env.run (LimaInstanceResource.createArgs data) = .ok out)
    (hst : env.run ["start", data.Name.ValueString] = .err se so) :
    (LimaInstanceResource.Create env data).1
        = [LimaInstanceResource.createArgs data,
           ["start", data.Name.ValueString], ["delete", data.Name.ValueString]]
    ∧ (LimaInstanceResource.Create env data).2.2
        = .error (.commandExecutionError ["start", data.Name.ValueString] se so)
    ∧ (∀ o, env.run ["delete", data.Name.ValueString] = .ok o →
        (LimaInstanceResource.Create env data).2.1
          = [.warnStartFailedCleaningUp data.Name.ValueString])
    ∧ (∀ de dout, env.run ["delete", data.Name.ValueString] = .err de dout →
        (LimaInstanceResource.Create env data).2.1
          = [.warnStartFailedCleaningUp data.Name.ValueString,
             .errorCleanupFailed data.Name.ValueString de dout]) := by
  unfold LimaInstanceResource.Create
  rcases hd : env.run ["delete", data.Name.ValueString] with ⟨dd⟩ | ⟨de, dd⟩ <;>
    simp [hc, hst, hd]

/-- C5 witness: with a failing start and everything else succeeding,
Create runs create, start and the cleanup delete, logs the cleanup
warning, and reports the start failure. -/
theorem C5_witness :
    LimaInstanceResource.Create envStartFails instBase
      = ([LimaInstanceResource.createArgs instBase, ["start", "test-instance"],
          ["delete", "test-instance"]],
         [.warnStartFailedCleaningUp "test-instance"],
         .error (.commandExecutionError ["start", "test-instance"]
           "exit status 1" "boom")) := by
  have h := C5_create_start_failure_cleanup envStartFails instBase "" "exit status 1"
    "boom" rfl rfl
  have hsplit : LimaInstanceResource.Create envStartFails instBase
      = ((LimaInstanceResource.Create envStartFails instBase).1,
         (LimaInstanceResource.Create envStartFails instBase).2.1,
         (LimaInstanceResource.Create envStartFails instBase).2.2) := rfl
  rw [hsplit, h.1, h.2.1, h.2.2.1 "" rfl]
  rfl

/-- C1 counterexample: the claim fails as stated.  Here the mutable
rosetta field differs between prior and desired record (a toggle turning
false), yet Update invokes zero external commands instead of the three
the claim requires, and silently persists the desired record. -/
theorem C1_counterexample :
    specMutableFieldChanged instBase instRosettaOn = true
    ∧ LimaInstanceResource.Update envAllOk instBase instRosettaOn
        = ([], .ok instBase) := by
  exact ⟨by decide, by decide⟩

/-- C1 (amended): for every instance Update in which at least one changed
mutable field contributes an edit flag (the edit argument list holds more
than the subcommand and the name), the manager invokes exactly stop, then
edit, then start, in that order, aborting the sequence at the first
failure and reporting the CommandExecutionError of that step. -/
theorem C1_update_stop_edit_start (env : ExecEnv)
    (plan state : LimaInstanceResourceModel)
    (h : 2 < (LimaInstanceResource.editArgs plan state).length) :
    (∀ e o, env.run ["stop", plan.Name.ValueString] = .err e o →
        LimaInstanceResource.Update env plan state
          = ([["stop", plan.Name.ValueString]],
             .error (.commandExecutionError ["stop", plan.Name.ValueString] e o)))
    ∧ (∀ o1 e o, env.run ["stop", plan.Name.ValueString] = .ok o1 →
        env.run (LimaInstanceResource.editArgs plan state) = .err e o →
        LimaInstanceResource.Update env plan state
          = ([["stop", plan.Name.ValueString],
              LimaInstanceResource.editArgs plan state],
             .error (.commandExecutionError
               (LimaInstanceResource.editArgs plan state) e o)))
    ∧ (∀ o1 o2 e o, env.run ["stop", plan.Name.ValueString] = .ok o1 →
        env.run (LimaInstanceResource.editArgs plan state) = .ok o2 →
        env.run ["start", plan.Name.ValueString] = .err e o →
        LimaInstanceResource.Update env plan state
          = ([["stop", plan.Name.ValueString],
              LimaInstanceResource.editArgs plan state,
              ["start", plan.Name.ValueString]],
             .error (.commandExecutionError ["start", plan.Name.ValueString] e o)))
    ∧ (∀ o1 o2 o3, env.run ["stop", plan.Name.ValueString] = .ok o1 →
        env.run (LimaInstanceResource.editArgs plan state) = .ok o2 →
        env.run ["start", plan.Name.ValueString] = .ok o3 →
        LimaInstanceResource.Update env plan state
          = ([["stop", plan.Name.ValueString],
              LimaInstanceResource.editArgs plan state,
              ["start", plan.Name.ValueString]], .ok plan)) := by
  simp only [LimaInstanceResource.Update, h, if_true]
  refine ⟨?_, ?_, ?_, ?_⟩
  · intro e o hs; simp [hs]
  · intro o1 e o hs he; simp [hs, he]
  · intro o1 o2 e o hs he hst; simp [hs, he, hst]
  · intro o1 o2 o3 hs he hst; simp [hs, he, hst]

/-- C1 witness: the spec scenario cpus 2 to 4 produces the stop, edit
with only the cpus flag, start sequence and persists the plan. -/
theorem C1_witness :
    2 < (LimaInstanceResource.editArgs instCpus4 instCpus2).length
    ∧ LimaInstanceResource.Update envAllOk instCpus4 instCpus2
        = ([["stop", "test-instance"], ["edit", "test-instance", "--cpus=4"],
            ["start", "test-instance"]], .ok instCpus4) := by
  have h := (C1_update_stop_edit_start envAllOk instCpus4 instCpus2 (by decide)).2.2.2
    "" "" "" rfl rfl rfl
  exact ⟨by decide, h.trans (by decide)⟩

/-- C9: an instance Update in which every differing mutable field
contributes no edit flag (a changed list field null or empty in the plan,
a changed boolean toggle false in the plan, a changed scalar null in the
plan) invokes no external command at all and persists the desired record
directly. -/
theorem C9_no_flag_update_no_commands (env : ExecEnv)
    (plan state : LimaInstanceResourceModel)
    (hCpus : plan.Cpus.Equal state.Cpus = false → plan.Cpus.IsNull = true)
    (hDisk : plan.Disk.Equal state.Disk = false → plan.Disk.IsNull = true)
    (hMemory : plan.Memory.Equal state.Memory = false → plan.Memory.IsNull = true)
    (hDNS : plan.DNS.Equal state.DNS = false →
      plan.DNS.IsNull = true ∨ plan.DNS.Elements.length = 0)
    (hMount : plan.Mount.Equal state.Mount = false →
      plan.Mount.IsNull = true ∨ plan.Mount.Elements.length = 0)
    (hMountInotify : plan.MountInotify.Equal state.MountInotify = false →
      plan.MountInotify.ValueBool = false)
    (hMountType : plan.MountType.Equal state.MountType = false →
      plan.MountType.IsNull = true)
    (hMountWritable : plan.MountWritable.Equal state.MountWritable = false →
      plan.MountWritable.ValueBool = false)
    (hNetwork : plan.Network.Equal state.Network = false →
      plan.Network.IsNull = true ∨ plan.Network.Elements.length = 0)
    (hRosetta : plan.Rosetta.Equal state.Rosetta = false →
      plan.Rosetta.ValueBool = false)
    (hVideo : plan.Video.Equal state.Video = false →
      plan.Video.ValueBool = false) :
    LimaInstanceResource.Update env plan state = ([], .ok plan) := by
  have hargs : LimaInstanceResource.editArgs plan state
      = ["edit", plan.Name.ValueString] := by
    unfold LimaInstanceResource.editArgs
    rw [flag_nil_of_null hCpus, flag_nil_of_null hDisk, flag_nil_of_null hMemory,
      flag_nil_of_list hDNS, flag_nil_of_list hMount,
      flag_nil_of_false hMountInotify, flag_nil_of_null hMountType,
      flag_nil_of_false hMountWritable, flag_nil_of_list hNetwork,
      flag_nil_of_false hRosetta, flag_nil_of_false hVideo]
    simp
  simp [LimaInstanceResource.Update, hargs]

/-- C9 witness: a rosetta toggle turning false is a changed mutable field
with no edit flag; Update runs nothing and persists the plan. -/
theorem C9_witness :
    instBase.Rosetta.Equal instRosettaOn.Rosetta = false
    ∧ LimaInstanceResource.Update envAllOk instBase instRosettaOn
        = ([], .ok instBase) :=
  ⟨by decide,
   C9_no_flag_update_no_commands envAllOk instBase instRosettaOn (by decide)
     (by decide) (by decide) (by decide) (by decide) (by decide) (by decide)
     (by decide) (by decide) (by decide) (by decide)⟩

/-- C4 counterexample: the claim fails as stated.  The listing output
holds a non-empty line that is not valid JSON, positioned after a line
whose name matches the stored record; the Read succeeds instead of
failing with a ParseError. -/
theorem C4_counterexample :
    (∃ l ∈ goSplitLines (goTrimSpace "\x7b\"name\":\"test-disk\"\x7d\nnot json"),
        l ≠ "" ∧ ∃ e, envScanStop.unmarshalName l = .error e)
    ∧ LimaDiskResource.Read envScanStop diskRecord
        = ([["disk", "list", "--json"]], .set diskRecord) := by
  constructor
  · exact ⟨"not json", by decide, by decide, "invalid character", by decide⟩
  · decide

/-- C4 (amended): for every Read (disk or instance) whose listing command
succeeds, a non-empty line that is not valid JSON and is reached by the
scan — every line before it being empty or parsing to a name different
from the stored one — makes the operation fail with a ParseError carrying
the offending line and the parse error, surfaced to the caller; lines
after the first matching line are never parsed. -/
theorem C4_parse_error_surfaced (env : ExecEnv) (output : String)
    (pre : List String) (l e : String) (post : List String)
    (hsplit : goSplitLines (goTrimSpace output) = pre ++ l :: post)
    (hl : l ≠ "") (herr : env.unmarshalName l = .error e) :
    (∀ ddata : LimaDiskResourceModel,
        env.run ["disk", "list", "--json"] = .ok output →
        (∀ x ∈ pre, x = "" ∨ ∃ nm, env.unmarshalName x = .ok nm
            ∧ nm ≠ ddata.Name.ValueString) →
        LimaDiskResource.Read env ddata
          = ([["disk", "list", "--json"]], .failed (.parseError e l)))
    ∧ (∀ idata : LimaInstanceResourceModel,
        env.run ["list", "--json"] = .ok output →
        (∀ x ∈ pre, x = "" ∨ ∃ nm, env.unmarshalName x = .ok nm
            ∧ nm ≠ idata.Name.ValueString) →
        LimaInstanceResource.Read env idata
          = ([["list", "--json"]], .failed (.parseError e l))) := by
  constructor
  · intro ddata hrun hpre
    simp only [LimaDiskResource.Read]
    rw [hrun]
    dsimp only
    rw [hsplit, scanForName_error env.unmarshalName ddata.Name.ValueString pre l
      post e hpre hl herr]
  · intro idata hrun hpre
    simp only [LimaInstanceResource.Read]
    rw [hrun]
    dsimp only
    rw [hsplit, scanForName_error env.unmarshalName idata.Name.ValueString pre l
      post e hpre hl herr]

/-- C4 witness: a listing consisting of one malformed line fails both
Reads with a ParseError naming that line and the parse error. -/
theorem C4_witness :
    goSplitLines (goTrimSpace "not json") = [] ++ "not json" :: []
    ∧ LimaDiskResource.Read envParseFail diskRecord
        = ([["disk", "list", "--json"]],
           .failed (.parseError "invalid character" "not json"))
    ∧ LimaInstanceResource.Read envParseFail instBase
        = ([["list", "--json"]],
           .failed (.parseError "invalid character" "not json")) := by
  have h := C4_parse_error_surfaced envParseFail "not json" [] "not json"
    "invalid character" [] (by decide) (by decide) (by decide)
  exact ⟨by decide, h.1 diskRecord rfl (by simp), h.2 instBase rfl (by simp)⟩

/-- C6: for every Read (disk or instance) whose listing succeeds and
whose non-empty lines all parse: when no parsed name equals the stored
name the record is removed from state without error, and when some
non-empty line parses to the stored name the stored record is persisted
completely unchanged, no field modified. -/
theorem C6_read_presence_reconciliation (env : ExecEnv) (output : String)
    (hall : ∀ x ∈ goSplitLines (goTrimSpace output),
      x = "" ∨ ∃ nm, env.unmarshalName x = .ok nm) :
    (∀ ddata : LimaDiskResourceModel,
        env.run ["disk", "list", "--json"] = .ok output →
        ((∀ x ∈ goSplitLines (goTrimSpace output), ∀ nm,
            env.unmarshalName x = .ok nm → nm ≠ ddata.Name.ValueString) →
          LimaDiskResource.Read env ddata
            = ([["disk", "list", "--json"]], .removed))
        ∧ ((∃ x ∈ goSplitLines (goTrimSpace output),
              x ≠ "" ∧ env.unmarshalName x = .ok ddata.Name.ValueString) →
          LimaDiskResource.Read env ddata
            = ([["disk", "list", "--json"]], .set ddata)))
    ∧ (∀ idata : LimaInstanceResourceModel,
        env.run ["list", "--json"] = .ok output →
        ((∀ x ∈ goSplitLines (goTrimSpace output), ∀ nm,
            env.unmarshalName x = .ok nm → nm ≠ idata.Name.ValueString) →
          LimaInstanceResource.Read env idata
            = ([["list", "--json"]], .removed))
        ∧ ((∃ x ∈ goSplitLines (goTrimSpace output),
              x ≠ "" ∧ env.unmarshalName x = .ok idata.Name.ValueString) →
          LimaInstanceResource.Read env idata
            = ([["list", "--json"]], .set idata))) := by
  constructor
  · intro ddata hrun
    constructor
    · intro hno
      simp only [LimaDiskResource.Read]
      rw [hrun]
      dsimp only
      rw [scanForName_ok_false env.unmarshalName ddata.Name.ValueString _
        (fun x hx => (hall x hx).elim Or.inl
          (fun hex => hex.elim fun nm hnm => Or.inr ⟨nm, hnm, hno x hx nm hnm⟩))]
    · intro hex
      simp only [LimaDiskResource.Read]
      rw [hrun]
      dsimp only
      rw [scanForName_ok_true env.unmarshalName ddata.Name.ValueString _
        hall hex]
  · intro idata hrun
    constructor
    · intro hno
      simp only [LimaInstanceResource.Read]
      rw [hrun]
      dsimp only
      rw [scanForName_ok_false env.unmarshalName idata.Name.ValueString _
        (fun x hx => (hall x hx).elim Or.inl
          (fun hex => hex.elim fun nm hnm => Or.inr ⟨nm, hnm, hno x hx nm hnm⟩))]
    · intro hex
      simp only [LimaInstanceResource.Read]
      rw [hrun]
      dsimp only
      rw [scanForName_ok_true env.unmarshalName idata.Name.ValueString _
        hall hex]

/-- C6 witness: a disk listing naming only another disk prunes the stored
disk record without error, and an instance listing naming the stored
instance persists the record unchanged. -/
theorem C6_witness :
    LimaDiskResource.Read envOtherName diskRecord
      = ([["disk", "list", "--json"]], .removed)
    ∧ LimaInstanceResource.Read envOtherName instBase
        = ([["list", "--json"]], .set instBase) := by
  constructor
  · have hlines : goSplitLines (goTrimSpace "\x7b\"name\":\"other\"\x7d")
        = ["\x7b\"name\":\"other\"\x7d"] := by decide
    have h := C6_read_presence_reconciliation envOtherName
      "\x7b\"name\":\"other\"\x7d"
      (by
        intro x hx
        rw [hlines, List.mem_singleton] at hx
        subst hx
        exact Or.inr ⟨"other", by decide⟩)
    refine (h.1 diskRecord (by decide)).1 ?_
    intro x hx nm hnm
    rw [hlines, List.mem_singleton] at hx
    subst hx
    have hok : envOtherName.unmarshalName "\x7b\"name\":\"other\"\x7d"
        = .ok "other" := by decide
    rw [hok, Except.ok.injEq] at hnm
    subst hnm
    decide
  · have hlines : goSplitLines (goTrimSpace "\x7b\"name\":\"test-instance\"\x7d")
        = ["\x7b\"name\":\"test-instance\"\x7d"] := by decide
    have h := C6_read_presence_reconciliation envOtherName
      "\x7b\"name\":\"test-instance\"\x7d"
      (by
        intro x hx
        rw [hlines, List.mem_singleton] at hx
        subst hx
        exact Or.inr ⟨"test-instance", by decide⟩)
    exact (h.2 instBase (by decide)).2
      ⟨"\x7b\"name\":\"test-instance\"\x7d", by rw [hlines]; exact List.mem_singleton.mpr rfl,
       by decide, by decide⟩

/-- C10: the Read scan stops at the first line parsing to the stored
name: with every earlier line empty or parsing to a different name, the
Read keeps the record whatever lines follow the match, so a malformed
line after the matching line is never parsed and causes no error; and a
whitespace-only listing output trims to the empty string, whose single
empty line piece is skipped without parsing, pruning the record. -/
theorem C10_read_stops_at_first_match (env : ExecEnv) (output : String) :
    (∀ (ddata : LimaDiskResourceModel) (pre : List String) (m : String)
        (post : List String),
        env.run ["disk", "list", "--json"] = .ok output →
        goSplitLines (goTrimSpace output) = pre ++ m :: post →
        (∀ x ∈ pre, x = "" ∨ ∃ nm, env.unmarshalName x = .ok nm
            ∧ nm ≠ ddata.Name.ValueString) →
        m ≠ "" → env.unmarshalName m = .ok ddata.Name.ValueString →
        LimaDiskResource.Read env ddata
          = ([["disk", "list", "--json"]], .set ddata))
    ∧ (∀ (idata : LimaInstanceResourceModel) (pre : List String) (m : String)
        (post : List String),
        env.run ["list", "--json"] = .ok output →
        goSplitLines (goTrimSpace output) = pre ++ m :: post →
        (∀ x ∈ pre, x = "" ∨ ∃ nm, env.unmarshalName x = .ok nm
            ∧ nm ≠ idata.Name.ValueString) →
        m ≠ "" → env.unmarshalName m = .ok idata.Name.ValueString →
        LimaInstanceResource.Read env idata
          = ([["list", "--json"]], .set idata))
    ∧ (∀ ddata : LimaDiskResourceModel,
        env.run ["disk", "list", "--json"] = .ok output →
        goTrimSpace output = "" →
        LimaDiskResource.Read env ddata
          = ([["disk", "list", "--json"]], .removed))
    ∧ (∀ idata : LimaInstanceResourceModel,
        env.run ["list", "--json"] = .ok output →
        goTrimSpace output = "" →
        LimaInstanceResource.Read env idata
          = ([["list", "--json"]], .removed)) := by
  refine ⟨?_, ?_, ?_, ?_⟩
  · intro ddata pre m post hrun hsplit hpre hm hmatch
    simp only [LimaDiskResource.Read]
    rw [hrun]
    dsimp only
    rw [hsplit, scanForName_stops env.unmarshalName ddata.Name.ValueString
      pre m post hpre hm hmatch]
  · intro idata pre m post hrun hsplit hpre hm hmatch
    simp only [LimaInstanceResource.Read]
    rw [hrun]
    dsimp only
    rw [hsplit, scanForName_stops env.unmarshalName idata.Name.ValueString
      pre m post hpre hm hmatch]
  · intro ddata hrun htrim
    simp only [LimaDiskResource.Read]
    rw [hrun]
    dsimp only
    rw [htrim]
    rfl
  · intro idata hrun htrim
    simp only [LimaInstanceResource.Read]
    rw [hrun]
    dsimp only
    rw [htrim]
    rfl

/-- C10 witness: with a malformed line after the matching line the disk
Read still keeps the record, and a whitespace-only instance listing
prunes the record. -/
theorem C10_witness :
    LimaDiskResource.Read envScanStop diskRecord
      = ([["disk", "list", "--json"]], .set diskRecord)
    ∧ LimaInstanceResource.Read envWhitespace instBase
        = ([["list", "--json"]], .removed) := by
  constructor
  · exact (C10_read_stops_at_first_match envScanStop
      "\x7b\"name\":\"test-disk\"\x7d\nnot json").1 diskRecord []
      "\x7b\"name\":\"test-disk\"\x7d" ["not json"] (by decide) (by decide)
      (by simp) (by decide) (by decide)
  · exact (C10_read_stops_at_first_match envWhitespace "   \n  ").2.2.2 instBase
      (by decide) (by decide)
